import Mathlib

/-!
Verification of the metrics aggregation script `metrics-aggregate.py`.

The script ingests line-oriented metrics log files, filters records by
name pattern, buckets them into fixed-width time windows, accumulates
per-bucket statistics and prints a sorted fixed-width report.  This file
gives a shallow embedding of the data model and the operations of the
script (the accumulator `record_metrics_line`, the field extractor
`field_value`, the bucketizer `calculate_aggregation_period_start_ms`,
the regex filter, the unit conversion of `print_metrics`, and the
per-line pipeline of `read_file`), and proves the specified properties
about them.

Python integers are unbounded, so they are modelled by `Int`; the Python
floor division `//` is `Int.fdiv`.  Fallible Python operations (the
`int()` constructor raising `ValueError`, integer division by zero
raising `ZeroDivisionError`, list indexing raising `IndexError`) are
modelled with `Except PyErr`.  The global `metrics` dictionary of the
script is modelled by an explicit insertion-ordered association list
that each operation takes and returns.
-/

/-- Errors that the Python runtime can raise while the script runs. -/
inductive PyErr where
  | valueError
  | zeroDivisionError
  | indexError
  deriving DecidableEq, Repr

/-! ## Character and string helpers (Python string semantics) -/

/-- The decimal digit character for `d` (`d` is always a value of `n % 10`,
hence below 10). -/
def digitChar : Nat → Char
  | 0 => '0' | 1 => '1' | 2 => '2' | 3 => '3' | 4 => '4'
  | 5 => '5' | 6 => '6' | 7 => '7' | 8 => '8' | _ => '9'

/-- Fuelled most-significant-first decimal digit list of a natural number,
as produced by Python `str` on a non-negative int.  The fuel argument only
makes the recursion structural; `natDigits` always supplies enough. -/
def natDigitsAux : Nat → Nat → List Char
  | 0, _ => []
  | fuel + 1, n =>
    if n < 10 then [digitChar n]
    else natDigitsAux fuel (n / 10) ++ [digitChar (n % 10)]

/-- Canonical decimal digits of a natural number, most significant first. -/
def natDigits (n : Nat) : List Char := natDigitsAux (n + 1) n

/-- Python `str` of an unbounded integer, as a character list:
a leading `-` for negatives followed by the canonical decimal digits. -/
def intStrData (i : Int) : List Char :=
  if i < 0 then '-' :: natDigits i.natAbs else natDigits i.natAbs

/-- Python `str(i)` for an int `i`. -/
def intStr (i : Int) : String := String.mk (intStrData i)

/-- Python `a.startswith(b)` on character lists. -/
def isPrefixL : List Char → List Char → Bool
  | [], _ => true
  | _ :: _, [] => false
  | a :: as, b :: bs => a == b && isPrefixL as bs

/-- Python `s.startswith(pre)`. -/
def pyStartsWith (s pre : String) : Bool := isPrefixL pre.data s.data

/-- Python slicing `s[n:]` (character based, clamped at the end). -/
def pyDrop (s : String) (n : Nat) : String := String.mk (s.data.drop n)

/-- Python `s.split(", ")` at the character-list level: a boundary at every
leftmost non-overlapping occurrence of the two-character separator. -/
def splitCommaSpaceL : List Char → List (List Char)
  | [] => [[]]
  | ',' :: ' ' :: rest => [] :: splitCommaSpaceL rest
  | c :: rest =>
    match splitCommaSpaceL rest with
    | [] => [[c]]
    | t :: ts => (c :: t) :: ts

/-- Python `s.split(", ")`, as used on each input line by `read_file`. -/
def splitCommaSpace (s : String) : List String :=
  (splitCommaSpaceL s.data).map String.mk

/-- Split a character list at every colon, used to model how
`datetime.strptime(raw_time, "%H:%M:%S")` decomposes the time field. -/
def splitColonL : List Char → List (List Char)
  | [] => [[]]
  | ':' :: rest => [] :: splitColonL rest
  | c :: rest =>
    match splitColonL rest with
    | [] => [[c]]
    | t :: ts => (c :: t) :: ts

/-- Whitespace stripped by Python `int()` before parsing. -/
def isPySpace (c : Char) : Bool :=
  c == ' ' || c == '\t' || c == '\n' || c == '\r' || c == '\x0b' || c == '\x0c'

/-- Strip leading and trailing Python whitespace from a character list. -/
def pyStrip (l : List Char) : List Char :=
  (((l.dropWhile isPySpace).reverse.dropWhile isPySpace).reverse)

/-- Continue parsing a decimal literal after its first digit: further
digits, with single underscores permitted between digits (Python 3
int-literal grouping). -/
def pyDigitsGo (acc : Nat) : List Char → Except PyErr Nat
  | [] => .ok acc
  | '_' :: c :: cs =>
    if c.isDigit then pyDigitsGo (acc * 10 + (c.toNat - 48)) cs
    else .error .valueError
  | c :: cs =>
    if c.isDigit then pyDigitsGo (acc * 10 + (c.toNat - 48)) cs
    else .error .valueError

/-- Parse a non-empty unsigned decimal literal as Python `int()` does. -/
def pyDigits : List Char → Except PyErr Nat
  | [] => .error .valueError
  | c :: cs =>
    if c.isDigit then pyDigitsGo (c.toNat - 48) cs
    else .error .valueError

/-- Python `int(s)`: strip whitespace, accept one optional sign, then a
non-empty run of decimal digits; anything else raises `ValueError`. -/
def pyInt (s : String) : Except PyErr Int :=
  match pyStrip s.data with
  | '+' :: rest => (pyDigits rest).map (fun n => (n : Int))
  | '-' :: rest => (pyDigits rest).map (fun n => -(n : Int))
  | l => (pyDigits l).map (fun n => (n : Int))

/-! ## Data model -/

/-- One aggregated row, mirroring the namedtuple `MetricsTuple` with the
fields `date`, `time`, `name`, `count`, `avg`, `max`, `sum`, `errcount`
(lines 16-17 of the source). -/
structure MetricsTuple where
  date : String
  time : String
  name : String
  count : Int
  avg : Int
  max : Int
  sum : Int
  errcount : Int
  deriving DecidableEq, Repr

/-- The global `metrics` dictionary: an insertion-ordered mapping
from the string key `str(ms) + '-' + name` to the accumulated tuple. -/
def Metrics : Type := List (String × MetricsTuple)

/-- Python `metrics[key]` lookup (`key in metrics` is `isSome`). -/
def dictGet : Metrics → String → Option MetricsTuple
  | [], _ => none
  | (k, v) :: rest, key => if k = key then some v else dictGet rest key

/-- Python `metrics[key] = mt`: replace the value of an existing key in
place, otherwise append the new binding (dict insertion order). -/
def dictSet : Metrics → String → MetricsTuple → Metrics
  | [], key, mt => [(key, mt)]
  | (k, v) :: rest, key, mt =>
    if k = key then (key, mt) :: rest else (k, v) :: dictSet rest key mt

/-- The dictionary key built at line 61 of the source:
`key = str(ms) + '-' + name`. -/
def mkKey (ms : Int) (name : String) : String :=
  String.mk (intStrData ms ++ '-' :: name.data)

/-! ## Calendar conversion (UTC model of the `datetime` calls)

`record_metrics_line` renders the bucket timestamp back to labels with
`datetime.datetime.fromtimestamp(ms / 1000)` and `strftime`;
`calculate_aggregation_period_start_ms` combines the file date and the
line time with `datetime.datetime.combine` and `.timestamp()`.  Both are
modelled in UTC with the standard proleptic-Gregorian civil-calendar
conversion. -/

/-- Days since 1970-01-01 of a civil date (proleptic Gregorian). -/
def daysFromCivil (y m d : Int) : Int :=
  let y1 := y - (if m ≤ 2 then 1 else 0)
  let era := Int.fdiv y1 400
  let yoe := y1 - era * 400
  let mp := m + (if 2 < m then -3 else 9)
  let doy := Int.fdiv (153 * mp + 2) 5 + d - 1
  let doe := yoe * 365 + Int.fdiv yoe 4 - Int.fdiv yoe 100 + doy
  era * 146097 + doe - 719468

/-- Civil date `(year, month, day)` of a count of days since 1970-01-01. -/
def civilFromDays (z0 : Int) : Int × Int × Int :=
  let z := z0 + 719468
  let era := Int.fdiv z 146097
  let doe := z - era * 146097
  let yoe := Int.fdiv (doe - Int.fdiv doe 1460 + Int.fdiv doe 36524 - Int.fdiv doe 146096) 365
  let y := yoe + era * 400
  let doy := doe - (365 * yoe + Int.fdiv yoe 4 - Int.fdiv yoe 100)
  let mp := Int.fdiv (5 * doy + 2) 153
  let d := doy - Int.fdiv (153 * mp + 2) 5 + 1
  let m := mp + (if mp < 10 then 3 else -9)
  (y + (if m ≤ 2 then 1 else 0), m, d)

/-- Decimal digits of `n` left-padded with zeros to width `w`
(`strftime` zero padding). -/
def padZeros (w : Nat) (n : Nat) : List Char :=
  let ds := natDigits n
  List.replicate (w - ds.length) '0' ++ ds

/-- The `date` label, in strftime format `%Y-%m-%d`, of a millisecond timestamp
(line 83 of the source). -/
def msToDateStr (ms : Int) : String :=
  let c := civilFromDays (Int.fdiv ms 86400000)
  String.mk (padZeros 4 c.1.toNat ++ '-' :: (padZeros 2 c.2.1.toNat ++ '-' :: padZeros 2 c.2.2.toNat))

/-- The `time` label, in strftime format `%H:%M`, of a millisecond timestamp
(line 84 of the source). -/
def msToTimeStr (ms : Int) : String :=
  let s := Int.fdiv ms 1000
  let sod := Int.fmod s 86400
  String.mk (padZeros 2 (Int.fdiv sod 3600).toNat ++ ':' :: padZeros 2 (Int.fdiv (Int.fmod sod 3600) 60).toNat)

/-- A calendar date, as `parse_filename_date` returns one. -/
structure CivilDate where
  year : Int
  month : Int
  day : Int
  deriving DecidableEq, Repr

/-- A time of day, as `datetime.strptime(raw_time, "%H:%M:%S").time()`
returns one. -/
structure TimeOfDay where
  hour : Nat
  minute : Nat
  second : Nat
  deriving DecidableEq, Repr

/-- `int(datetime.datetime.combine(d, t).timestamp() * 1000)` (UTC):
the absolute instant of the date and time in integer milliseconds. -/
def combineMs (d : CivilDate) (t : TimeOfDay) : Int :=
  daysFromCivil d.year d.month d.day * 86400000
    + ((t.hour : Int) * 3600 + (t.minute : Int) * 60 + (t.second : Int)) * 1000

/-! ## The source functions -/

/-- Lines 35-47 of the source, `field_value(field_name, fields)`:
return the `int` of the text after position `len(field_name) + 1` of the
first field that starts with `field_name`, or `0` if no field matches. -/
def field_value (field_name : String) : List String → Except PyErr Int
  | [] => .ok 0
  | field :: rest =>
    if pyStartsWith field field_name then pyInt (pyDrop field (field_name.length + 1))
    else field_value field_name rest

/-- Stored count for a key, or 0 when the key is absent
(line 67 of the source). -/
def countOf (m : Metrics) (key : String) : Int :=
  match dictGet m key with
  | none => 0
  | some e => e.count

/-- Stored avg for a key, or 0 when the key is absent
(line 68 of the source). -/
def avgOf (m : Metrics) (key : String) : Int :=
  match dictGet m key with
  | none => 0
  | some e => e.avg

/-- Stored max for a key, or 0 when the key is absent
(line 69 of the source). -/
def maxOf (m : Metrics) (key : String) : Int :=
  match dictGet m key with
  | none => 0
  | some e => e.max

/-- Stored sum for a key, or 0 when the key is absent
(line 70 of the source). -/
def sumOf (m : Metrics) (key : String) : Int :=
  match dictGet m key with
  | none => 0
  | some e => e.sum

/-- Stored errcount for a key, or 0 when the key is absent
(line 71 of the source). -/
def errcountOf (m : Metrics) (key : String) : Int :=
  match dictGet m key with
  | none => 0
  | some e => e.errcount

/-- Lines 50-88 of the source, `record_metrics_line(ms, name,
metrics_fields)`: look up the tuple under `str(ms) + '-' + name`
(zero-valued when absent), add the extracted `count`, `max`, `sum` and
`err.count` fields, recompute `avg = sum // count if count > 0 else 0`,
rebuild the date and time labels from `ms`, and store the tuple back. -/
def record_metrics_line (ms : Int) (name : String) (metrics_fields : List String)
    (metrics : Metrics) : Except PyErr Metrics := do
  let key := mkKey ms name
  let count_value := countOf metrics key
  let max_value := maxOf metrics key
  let sum_value := sumOf metrics key
  let err_count_value := errcountOf metrics key
  let cv ← field_value "count" metrics_fields
  let mv ← field_value "max" metrics_fields
  let sv ← field_value "sum" metrics_fields
  let ev ← field_value "err.count" metrics_fields
  let count_value := count_value + cv
  let max_value := max_value + mv
  let sum_value := sum_value + sv
  let err_count_value := err_count_value + ev
  let avg_value := if 0 < count_value then Int.fdiv sum_value count_value else 0
  let mt : MetricsTuple :=
    ⟨msToDateStr ms, msToTimeStr ms, name, count_value, avg_value, max_value, sum_value, err_count_value⟩
  pure (dictSet metrics key mt)

/-- Lines 153-169 of the source, the closure
`calculate_aggregation_period_start_ms(d, t)`: combine date and time to
a millisecond instant and, when an aggregation width is configured, trim
it with `ms = (ms // aggregation_ms) * aggregation_ms`.  Python raises
`ZeroDivisionError` when the configured width is zero. -/
def calculate_aggregation_period_start_ms (aggregation_ms : Option Int)
    (d : CivilDate) (t : TimeOfDay) : Except PyErr Int :=
  let ms := combineMs d t
  match aggregation_ms with
  | none => .ok ms
  | some w => if w = 0 then .error .zeroDivisionError else .ok (Int.fdiv ms w * w)

/-- Constant `TIMING_RECORD`, the string `tm` (line 26 of the source). -/
def TIMING_RECORD : String := "tm"

/-- One-or-two-digit numeric component of a `%H:%M:%S` time, validated
against an upper bound, as `strptime` matches it. -/
def parseTimeComp (maxv : Nat) (l : List Char) : Except PyErr Nat :=
  if l = [] ∨ 2 < l.length ∨ ¬ l.all Char.isDigit then .error .valueError
  else
    let v := l.foldl (fun a c => a * 10 + (c.toNat - 48)) 0
    if v ≤ maxv then .ok v else .error .valueError

/-- `datetime.datetime.strptime(raw_time, "%H:%M:%S").time()`
(line 124 of the source): three colon-separated numeric components with
hour below 24, minute below 60 and second up to 61. -/
def parseTimeHMS (s : String) : Except PyErr TimeOfDay :=
  match splitColonL s.data with
  | [h, m, sec] => do
    let hv ← parseTimeComp 23 h
    let mv ← parseTimeComp 59 m
    let sv ← parseTimeComp 61 sec
    .ok ⟨hv, mv, sv⟩
  | _ => .error .valueError

/-- The per-line body of `read_file` (lines 117-129 of the source):
split on `", "`, parse the time, compute the bucket start, and for `tm`
records that pass the optional regex filter fold the summary fields into
the accumulator. -/
def processLine (aggregation_func : CivilDate → TimeOfDay → Except PyErr Int)
    (regex_func : Option (String → Bool)) (file_date : CivilDate)
    (metrics : Metrics) (line : String) : Except PyErr Metrics :=
  match splitCommaSpace line with
  | raw_time :: type :: name :: summary_fields => do
    let t ← parseTimeHMS raw_time
    let ms ← aggregation_func file_date t
    if type = TIMING_RECORD then
      if (match regex_func with | none => true | some f => f name) = true then
        record_metrics_line ms name summary_fields metrics
      else .ok metrics
    else .ok metrics
  | _ => .error .indexError

/-- Lines 104-129 of the source, `read_file`: fold every line of the file
through `processLine`, starting from the given accumulator state. -/
def read_file (file_date : CivilDate) (lines : List String)
    (aggregation_func : CivilDate → TimeOfDay → Except PyErr Int)
    (regex_func : Option (String → Bool)) (metrics : Metrics) : Except PyErr Metrics :=
  lines.foldlM (processLine aggregation_func regex_func file_date) metrics

/-- Case-insensitive regex search, modelling `re.compile(pat, re.I)` and
`compiled_regex.search(s)` for the pattern fragment the script is used
with: an optional leading `^` anchor followed by literal characters.
Without the anchor the literal may match at any position. -/
def ciPrefixMatch : List Char → List Char → Bool
  | [], _ => true
  | _ :: _, [] => false
  | p :: ps, c :: cs => p.toLower == c.toLower && ciPrefixMatch ps cs

/-- Search for a case-insensitive literal match at any position. -/
def ciSearch : List Char → List Char → Bool
  | pat, [] => ciPrefixMatch pat []
  | pat, c :: cs => ciPrefixMatch pat (c :: cs) || ciSearch pat cs

/-- Lines 174-180 of the source, `filter_by_regex(s)`:
`compiled_regex.search(s) is not None`, for a compiled case-insensitive
pattern of an optional `^` anchor followed by literal characters. -/
def filter_by_regex (grep_regex : String) (s : String) : Bool :=
  match grep_regex.data with
  | '^' :: rest => ciPrefixMatch rest s.data
  | pat => ciSearch pat s.data

/-- The filter gate of lines 127-129 and 183-185 of the source: with no
`--grep` pattern `regex_func` stays `None` and every name passes,
otherwise `filter_by_regex` decides. -/
def regex_accepts (grep_regex : Option String) (name : String) : Bool :=
  match grep_regex with
  | none => true
  | some p => filter_by_regex p name

/-- Lines 253-257 of the source: the display divisor is 1000 for
`--units ms`, 1000000 for `--units sec`, and stays 1 otherwise (the
default value of `args.units` is `ns`). -/
def unit_divisor_of (units : String) : Int :=
  if units = "ms" then 1000
  else if units = "sec" then 1000 * 1000
  else 1

/-- The numeric fields as `print_metrics` displays one row. -/
structure DisplayedFields where
  count : Int
  sum : Int
  max : Int
  avg : Int
  errcount : Int
  deriving DecidableEq, Repr

/-- Lines 132-146 of the source: `print_metrics` prints `count` and
`errcount` unchanged and divides `sum`, `max` and `avg` by the unit
divisor with Python floor division. -/
def print_metrics_fields (t : MetricsTuple) (unit_divisor : Int) : DisplayedFields :=
  ⟨t.count, Int.fdiv t.sum unit_divisor, Int.fdiv t.max unit_divisor,
    Int.fdiv t.avg unit_divisor, t.errcount⟩

/-- Repeated merges of observations sharing one `(ms, name)` key, in
sequence order, as `read_file` performs them. -/
def mergeAll (ms : Int) (name : String) (obss : List (List String))
    (m : Metrics) : Except PyErr Metrics :=
  obss.foldlM (fun acc mf => record_metrics_line ms name mf acc) m

/-- The four integer subfields extracted from one observation. -/
structure ObsVals where
  count : Int
  max : Int
  sum : Int
  errcount : Int
  deriving DecidableEq, Repr

/-- The observation token list `mf` extracts exactly to the subfield
values `v`. -/
def obs_extracts (mf : List String) (v : ObsVals) : Prop :=
  field_value "count" mf = .ok v.count ∧
  field_value "max" mf = .ok v.max ∧
  field_value "sum" mf = .ok v.sum ∧
  field_value "err.count" mf = .ok v.errcount

/-- Numeric value of a most-significant-first digit list; a left inverse
of `natDigits`, used to prove key injectivity. -/
def digitsVal (l : List Char) : Nat :=
  l.foldl (fun a c => a * 10 + (c.toNat - 48)) 0

/-- Every stored tuple carries `avg = sum // count if count > 0 else 0`
for its own `sum` and `count`. -/
def avg_invariant (m : Metrics) : Prop :=
  ∀ k t, dictGet m k = some t →
    t.avg = if 0 < t.count then Int.fdiv t.sum t.count else 0

/-! ## Helper lemmas -/

theorem ok_bind {α β : Type} (a : α) (f : α → Except PyErr β) :
    (Except.ok a >>= f) = f a := rfl

theorem error_bind {α β : Type} (e : PyErr) (f : α → Except PyErr β) :
    ((Except.error e : Except PyErr α) >>= f) = .error e := rfl

theorem dictGet_dictSet_self (m : Metrics) (k : String) (v : MetricsTuple) :
    dictGet (dictSet m k v) k = some v := by
  induction m with
  | nil => simp [dictSet, dictGet]
  | cons p rest ih =>
    obtain ⟨k1, v1⟩ := p
    by_cases h : k1 = k
    · simp [dictSet, dictGet, h]
    · simp [dictSet, dictGet, h, ih]

theorem dictGet_dictSet_ne (m : Metrics) (k k1 : String) (v : MetricsTuple)
    (h : k1 ≠ k) : dictGet (dictSet m k v) k1 = dictGet m k1 := by
  induction m with
  | nil => simp [dictSet, dictGet, Ne.symm h]
  | cons p rest ih =>
    obtain ⟨k2, v2⟩ := p
    by_cases h2 : k2 = k
    · subst h2
      simp [dictSet, dictGet, Ne.symm h]
    · simp [dictSet, dictGet, h2, ih]

/-- Full characterization of one successful merge step: when all four
field extractions succeed, `record_metrics_line` stores back the summed
tuple with the average recomputed from the new sum and count. -/
theorem record_metrics_line_ok (ms : Int) (name : String) (mf : List String)
    (m : Metrics) (v : ObsVals) (h : obs_extracts mf v) :
    record_metrics_line ms name mf m = .ok (dictSet m (mkKey ms name)
      ⟨msToDateStr ms, msToTimeStr ms, name,
       countOf m (mkKey ms name) + v.count,
       (if 0 < countOf m (mkKey ms name) + v.count then
          Int.fdiv (sumOf m (mkKey ms name) + v.sum)
            (countOf m (mkKey ms name) + v.count)
        else 0),
       maxOf m (mkKey ms name) + v.max,
       sumOf m (mkKey ms name) + v.sum,
       errcountOf m (mkKey ms name) + v.errcount⟩) := by
  obtain ⟨h1, h2, h3, h4⟩ := h
  simp [record_metrics_line, h1, h2, h3, h4, ok_bind]

/-- Inversion of a successful merge step: the extractions succeeded and
the result is the summed tuple stored back. -/
theorem record_metrics_line_ok_inv {ms : Int} {name : String}
    {mf : List String} {m m' : Metrics}
    (h : record_metrics_line ms name mf m = .ok m') :
    ∃ v : ObsVals, obs_extracts mf v ∧
      m' = dictSet m (mkKey ms name)
        ⟨msToDateStr ms, msToTimeStr ms, name,
         countOf m (mkKey ms name) + v.count,
         (if 0 < countOf m (mkKey ms name) + v.count then
            Int.fdiv (sumOf m (mkKey ms name) + v.sum)
              (countOf m (mkKey ms name) + v.count)
          else 0),
         maxOf m (mkKey ms name) + v.max,
         sumOf m (mkKey ms name) + v.sum,
         errcountOf m (mkKey ms name) + v.errcount⟩ := by
  cases hc : field_value "count" mf with
  | error e => simp [record_metrics_line, hc, error_bind] at h
  | ok cv =>
    cases hx : field_value "max" mf with
    | error e => simp [record_metrics_line, hc, hx, ok_bind, error_bind] at h
    | ok mv =>
      cases hs : field_value "sum" mf with
      | error e => simp [record_metrics_line, hc, hx, hs, ok_bind, error_bind] at h
      | ok sv =>
        cases he : field_value "err.count" mf with
        | error e => simp [record_metrics_line, hc, hx, hs, he, ok_bind, error_bind] at h
        | ok ev =>
          have hok := record_metrics_line_ok ms name mf m ⟨cv, mv, sv, ev⟩
            ⟨hc, hx, hs, he⟩
          rw [hok] at h
          exact ⟨⟨cv, mv, sv, ev⟩, ⟨hc, hx, hs, he⟩, (Except.ok.inj h).symm⟩

theorem digitChar_ne_dash (d : Nat) : digitChar d ≠ '-' := by
  unfold digitChar
  split <;> decide

theorem digitChar_toNat (d : Nat) (h : d < 10) : (digitChar d).toNat = 48 + d := by
  interval_cases d <;> rfl

theorem natDigitsAux_ne_nil : ∀ (fuel n : Nat), 0 < fuel → natDigitsAux fuel n ≠ []
  | 0, _, h => absurd h (by omega)
  | fuel + 1, n, _ => by
    unfold natDigitsAux
    split
    · simp
    · simp

theorem dash_not_mem_natDigitsAux : ∀ (fuel n : Nat), '-' ∉ natDigitsAux fuel n
  | 0, n => by simp [natDigitsAux]
  | fuel + 1, n => by
    unfold natDigitsAux
    split
    · intro h
      exact digitChar_ne_dash n (List.mem_singleton.mp h).symm
    · intro h
      rcases List.mem_append.mp h with h | h
      · exact dash_not_mem_natDigitsAux fuel (n / 10) h
      · exact digitChar_ne_dash (n % 10) (List.mem_singleton.mp h).symm

theorem digitsVal_append_digit (l : List Char) (c : Char) :
    digitsVal (l ++ [c]) = digitsVal l * 10 + (c.toNat - 48) := by
  simp [digitsVal, List.foldl_append]

theorem digitsVal_natDigitsAux : ∀ (fuel n : Nat), n < fuel →
    digitsVal (natDigitsAux fuel n) = n
  | 0, n, h => absurd h (by omega)
  | fuel + 1, n, h => by
    unfold natDigitsAux
    split
    · next hlt =>
      simp [digitsVal]
      rw [digitChar_toNat n hlt]
      omega
    · next hge =>
      rw [digitsVal_append_digit,
        digitsVal_natDigitsAux fuel (n / 10) (by omega),
        digitChar_toNat (n % 10) (by omega)]
      omega

theorem digitsVal_natDigits (n : Nat) : digitsVal (natDigits n) = n :=
  digitsVal_natDigitsAux (n + 1) n (by omega)

theorem natDigits_inj {a b : Nat} (h : natDigits a = natDigits b) : a = b := by
  have ha := digitsVal_natDigits a
  rw [h, digitsVal_natDigits] at ha
  omega

theorem dash_not_mem_natDigits (n : Nat) : '-' ∉ natDigits n :=
  dash_not_mem_natDigitsAux _ _

theorem natDigits_ne_nil (n : Nat) : natDigits n ≠ [] :=
  natDigitsAux_ne_nil _ _ (by omega)

/-- A character list of the shape digits-dash-rest decomposes uniquely
when the left part is dash free. -/
theorem append_dash_inj : ∀ (l₁ l₂ r₁ r₂ : List Char), '-' ∉ l₁ → '-' ∉ l₂ →
    l₁ ++ '-' :: r₁ = l₂ ++ '-' :: r₂ → l₁ = l₂ ∧ r₁ = r₂
  | [], [], r₁, r₂, _, _, h => by
    simp only [List.nil_append, List.cons.injEq, true_and] at h
    exact ⟨rfl, h⟩
  | [], b :: bs, r₁, r₂, _, h2, h => by
    simp only [List.nil_append, List.cons_append, List.cons.injEq] at h
    exact absurd (h.1 ▸ List.mem_cons_self b bs) h2
  | a :: as, [], r₁, r₂, h1, _, h => by
    simp only [List.nil_append, List.cons_append, List.cons.injEq] at h
    exact absurd (h.1 ▸ List.mem_cons_self a as) h1
  | a :: as, b :: bs, r₁, r₂, h1, h2, h => by
    simp only [List.cons_append, List.cons.injEq] at h
    obtain ⟨hab, ht⟩ := h
    have hr := append_dash_inj as bs r₁ r₂
      (fun hm => h1 (List.mem_cons_of_mem _ hm))
      (fun hm => h2 (List.mem_cons_of_mem _ hm)) ht
    exact ⟨by rw [hab, hr.1], hr.2⟩

theorem string_data_inj {s t : String} (h : s.data = t.data) : s = t := by
  cases s; cases t; exact congrArg String.mk h

/-- The composite string key `str(ms) + "-" + name` is injective in the
pair `(ms, name)`: the leading decimal digits determine where the
separating dash sits, even when the name itself contains dashes. -/
theorem mkKey_inj (ms₁ ms₂ : Int) (n₁ n₂ : String)
    (h : mkKey ms₁ n₁ = mkKey ms₂ n₂) : ms₁ = ms₂ ∧ n₁ = n₂ := by
  have hd : intStrData ms₁ ++ '-' :: n₁.data
      = intStrData ms₂ ++ '-' :: n₂.data := by
    have h2 := congrArg String.data h
    simpa [mkKey] using h2
  unfold intStrData at hd
  by_cases h₁ : ms₁ < 0 <;> by_cases h₂ : ms₂ < 0 <;> simp [h₁, h₂] at hd
  · obtain ⟨hD, hn⟩ := append_dash_inj _ _ _ _
      (dash_not_mem_natDigits _) (dash_not_mem_natDigits _) hd
    have ha := natDigits_inj hD
    exact ⟨by omega, string_data_inj hn⟩
  · obtain ⟨c, cs, hcons⟩ := List.exists_cons_of_ne_nil (natDigits_ne_nil ms₂.natAbs)
    rw [hcons] at hd
    simp only [List.cons_append, List.cons.injEq] at hd
    exact absurd (hd.1 ▸ hcons ▸ List.mem_cons_self c cs) (dash_not_mem_natDigits ms₂.natAbs)
  · obtain ⟨c, cs, hcons⟩ := List.exists_cons_of_ne_nil (natDigits_ne_nil ms₁.natAbs)
    rw [hcons] at hd
    simp only [List.cons_append, List.cons.injEq] at hd
    exact absurd (hd.1.symm ▸ hcons ▸ List.mem_cons_self c cs) (dash_not_mem_natDigits ms₁.natAbs)
  · obtain ⟨hD, hn⟩ := append_dash_inj _ _ _ _
      (dash_not_mem_natDigits _) (dash_not_mem_natDigits _) hd
    have ha := natDigits_inj hD
    exact ⟨by omega, string_data_inj hn⟩

theorem mem_keys_dictSet : ∀ (m : Metrics) (k a : String) (v : MetricsTuple),
    a ∈ (dictSet m k v).map Prod.fst → a = k ∨ a ∈ m.map Prod.fst
  | [], k, a, v, h => by
    simp [dictSet] at h
    exact Or.inl h
  | (k1, v1) :: rest, k, a, v, h => by
    by_cases h1 : k1 = k
    · simp [dictSet, h1] at h
      rcases h with h | h
      · exact Or.inl h
      · exact Or.inr (by simp [h])
    · simp [dictSet, h1] at h
      rcases h with h | h
      · exact Or.inr (by simp [h])
      · rcases mem_keys_dictSet rest k a v (by simpa using h) with h | h
        · exact Or.inl h
        · exact Or.inr (by simp [h])

theorem nodup_keys_dictSet : ∀ (m : Metrics) (k : String) (v : MetricsTuple),
    (m.map Prod.fst).Nodup → ((dictSet m k v).map Prod.fst).Nodup
  | [], k, v, _ => by simp [dictSet]
  | (k1, v1) :: rest, k, v, h => by
    rw [List.map_cons, List.nodup_cons] at h
    by_cases h1 : k1 = k
    · subst h1
      simpa [dictSet, List.nodup_cons] using h
    · rw [show dictSet ((k1, v1) :: rest) k v = (k1, v1) :: dictSet rest k v
        from by simp [dictSet, h1]]
      rw [List.map_cons, List.nodup_cons]
      refine ⟨?_, nodup_keys_dictSet rest k v h.2⟩
      intro hm
      rcases mem_keys_dictSet rest k k1 v hm with hh | hh
      · exact h1 hh
      · exact h.1 hh

/-- For a positive width, the floor quotient is characterized by the
half-open interval bounds. -/
theorem fdiv_eq_iff_bounds {a w k : Int} (hw : 0 < w) :
    Int.fdiv a w = k ↔ w * k ≤ a ∧ a < w * (k + 1) := by
  rw [Int.fdiv_eq_ediv _ (Int.le_of_lt hw)]
  constructor
  · rintro rfl
    refine ⟨?_, ?_⟩
    · rw [Int.mul_comm]
      exact Int.ediv_mul_le a (Int.ne_of_gt hw)
    · rw [Int.mul_comm]
      exact Int.lt_ediv_add_one_mul_self a hw
  · rintro ⟨hlo, hhi⟩
    have hk1 : k ≤ a / w := (Int.le_ediv_iff_mul_le hw).mpr (by rw [Int.mul_comm]; exact hlo)
    have hk2 : a / w < k + 1 := (Int.ediv_lt_iff_lt_mul hw).mpr (by rw [Int.mul_comm]; exact hhi)
    omega

theorem mergeAll_nil (ms : Int) (name : String) (m : Metrics) :
    mergeAll ms name [] m = .ok m := rfl

theorem mergeAll_cons (ms : Int) (name : String) (a : List String)
    (l : List (List String)) (m : Metrics) :
    mergeAll ms name (a :: l) m
      = record_metrics_line ms name a m >>= fun m₁ => mergeAll ms name l m₁ := rfl

/-- Merging a sequence of observations into one key adds, to each of the
four accumulated counters, the arithmetic sum of the corresponding
extracted subfields. -/
theorem mergeAll_counters (ms : Int) (name : String) :
    ∀ {obss : List (List String)} {vs : List ObsVals},
      List.Forall₂ obs_extracts obss vs → ∀ m : Metrics,
      ∃ m', mergeAll ms name obss m = .ok m' ∧
        countOf m' (mkKey ms name)
          = countOf m (mkKey ms name) + (vs.map ObsVals.count).sum ∧
        maxOf m' (mkKey ms name)
          = maxOf m (mkKey ms name) + (vs.map ObsVals.max).sum ∧
        sumOf m' (mkKey ms name)
          = sumOf m (mkKey ms name) + (vs.map ObsVals.sum).sum ∧
        errcountOf m' (mkKey ms name)
          = errcountOf m (mkKey ms name) + (vs.map ObsVals.errcount).sum := by
  intro obss vs hf
  induction hf with
  | nil =>
    intro m
    exact ⟨m, rfl, by simp, by simp, by simp, by simp⟩
  | @cons a b l₁ l₂ hob hrest ih =>
    intro m
    have hstep := record_metrics_line_ok ms name a m b hob
    obtain ⟨m', hm', hc, hx, hs, he⟩ := ih (dictSet m (mkKey ms name)
      ⟨msToDateStr ms, msToTimeStr ms, name,
       countOf m (mkKey ms name) + b.count,
       (if 0 < countOf m (mkKey ms name) + b.count then
          Int.fdiv (sumOf m (mkKey ms name) + b.sum)
            (countOf m (mkKey ms name) + b.count)
        else 0),
       maxOf m (mkKey ms name) + b.max,
       sumOf m (mkKey ms name) + b.sum,
       errcountOf m (mkKey ms name) + b.errcount⟩)
    refine ⟨m', ?_, ?_, ?_, ?_, ?_⟩
    · rw [mergeAll_cons, hstep, ok_bind]
      exact hm'
    · rw [hc]
      simp [countOf, dictGet_dictSet_self]
      ring
    · rw [hx]
      simp [maxOf, dictGet_dictSet_self]
      ring
    · rw [hs]
      simp [sumOf, dictGet_dictSet_self]
      ring
    · rw [he]
      simp [errcountOf, dictGet_dictSet_self]
      ring

/-- A non-empty merge sequence leaves the key present in the mapping. -/
theorem mergeAll_presence (ms : Int) (name : String) :
    ∀ {obss : List (List String)} {vs : List ObsVals},
      List.Forall₂ obs_extracts obss vs → ∀ (m m' : Metrics), obss ≠ [] →
      mergeAll ms name obss m = .ok m' →
      ∃ t, dictGet m' (mkKey ms name) = some t := by
  intro obss vs hf
  induction hf with
  | nil => intro m m' hne; exact absurd rfl hne
  | @cons a b l₁ l₂ hob hrest ih =>
    intro m m' _ hmrg
    have hstep := record_metrics_line_ok ms name a m b hob
    rw [mergeAll_cons, hstep, ok_bind] at hmrg
    by_cases hl : l₁ = []
    · subst hl
      rw [mergeAll_nil] at hmrg
      obtain rfl := Except.ok.inj hmrg
      exact ⟨_, dictGet_dictSet_self ..⟩
    · exact ih _ _ hl hmrg

/-! ## Claim theorems -/

/-- C1, counterexample to the claim as stated: merging one observation
with `count=-1` and `sum=5` into an empty accumulator stores the tuple
with `avg = 0`, although the stored count is nonzero and the sum
integer-divided by the count is `-5`, not `0`.  The code only divides
when the accumulated count is strictly positive. -/
theorem C1_counterexample :
    record_metrics_line 0 "a" ["count=-1", "max=0", "sum=5", "err.count=0"] []
      = .ok [("0-a", ⟨"1970-01-01", "00:00", "a", -1, 0, 0, 5, 0⟩)]
  ∧ (-1 : Int) ≠ 0
  ∧ Int.fdiv 5 (-1) ≠ 0 :=
  ⟨rfl, by decide, by decide⟩

/-- C1 (amended): one merge step looks up the existing tuple for the key
`str(ms) + "-" + name` (zero-valued when the key is absent), adds the
extracted `count`, `max`, `sum` and `err.count` values to the stored
counters, recomputes `avg` as the new sum floor-divided by the new count
when the new count is positive and `0` when it is zero or negative, and
writes the updated tuple back under that key. -/
theorem C1_theorem (ms : Int) (name : String) (mf : List String)
    (m : Metrics) (v : ObsVals) (h : obs_extracts mf v) :
    record_metrics_line ms name mf m = .ok (dictSet m (mkKey ms name)
      ⟨msToDateStr ms, msToTimeStr ms, name,
       countOf m (mkKey ms name) + v.count,
       (if 0 < countOf m (mkKey ms name) + v.count then
          Int.fdiv (sumOf m (mkKey ms name) + v.sum)
            (countOf m (mkKey ms name) + v.count)
        else 0),
       maxOf m (mkKey ms name) + v.max,
       sumOf m (mkKey ms name) + v.sum,
       errcountOf m (mkKey ms name) + v.errcount⟩) :=
  record_metrics_line_ok ms name mf m v h

/-- C1, witness: the amended merge contract applied to one concrete
observation on an empty accumulator. -/
theorem C1_witness :
    obs_extracts ["count=2", "max=7", "sum=10", "err.count=1"] ⟨2, 7, 10, 1⟩
  ∧ record_metrics_line 0 "a" ["count=2", "max=7", "sum=10", "err.count=1"] []
      = .ok (dictSet [] (mkKey 0 "a")
        ⟨msToDateStr 0, msToTimeStr 0, "a",
         countOf [] (mkKey 0 "a") + 2,
         (if 0 < countOf [] (mkKey 0 "a") + 2 then
            Int.fdiv (sumOf [] (mkKey 0 "a") + 10)
              (countOf [] (mkKey 0 "a") + 2)
          else 0),
         maxOf [] (mkKey 0 "a") + 7,
         sumOf [] (mkKey 0 "a") + 10,
         errcountOf [] (mkKey 0 "a") + 1⟩) :=
  ⟨⟨rfl, rfl, rfl, rfl⟩,
   C1_theorem 0 "a" ["count=2", "max=7", "sum=10", "err.count=1"] []
     ⟨2, 7, 10, 1⟩ ⟨rfl, rfl, rfl, rfl⟩⟩

/-- C2: for a sequence of observations merged under one key into an
empty accumulator, the final stored `count`, `max`, `sum` and `errcount`
each equal the arithmetic sum of that subfield over all observations; in
particular the stored max is the sum of the observation maxima, not
their running maximum, and any reordering of the observations yields the
same four final counters. -/
theorem C2_theorem (ms : Int) (name : String) (obss : List (List String))
    (vs : List ObsVals) (hf : List.Forall₂ obs_extracts obss vs)
    (hne : obss ≠ []) :
    ∃ m' t, mergeAll ms name obss [] = .ok m' ∧
      dictGet m' (mkKey ms name) = some t ∧
      t.count = (vs.map ObsVals.count).sum ∧
      t.max = (vs.map ObsVals.max).sum ∧
      t.sum = (vs.map ObsVals.sum).sum ∧
      t.errcount = (vs.map ObsVals.errcount).sum ∧
      ∀ (obss₂ : List (List String)) (vs₂ : List ObsVals),
        List.Forall₂ obs_extracts obss₂ vs₂ → vs₂.Perm vs →
        ∃ m₂ t₂, mergeAll ms name obss₂ [] = .ok m₂ ∧
          dictGet m₂ (mkKey ms name) = some t₂ ∧
          t₂.count = t.count ∧ t₂.max = t.max ∧
          t₂.sum = t.sum ∧ t₂.errcount = t.errcount := by
  obtain ⟨m', hm', hc, hx, hs, he⟩ := mergeAll_counters ms name hf []
  obtain ⟨t, ht⟩ := mergeAll_presence ms name hf [] m' hne hm'
  simp [countOf, dictGet, ht] at hc
  simp [maxOf, dictGet, ht] at hx
  simp [sumOf, dictGet, ht] at hs
  simp [errcountOf, dictGet, ht] at he
  refine ⟨m', t, hm', ht, hc, hx, hs, he, ?_⟩
  intro obss₂ vs₂ hf₂ hperm
  have hvs : vs ≠ [] := by
    intro h0
    subst h0
    cases hf
    exact hne rfl
  have hne₂ : obss₂ ≠ [] := by
    intro h0
    subst h0
    cases hf₂
    exact hvs hperm.symm.eq_nil
  obtain ⟨m₂, hm₂, hc₂, hx₂, hs₂, he₂⟩ := mergeAll_counters ms name hf₂ []
  obtain ⟨t₂, ht₂⟩ := mergeAll_presence ms name hf₂ [] m₂ hne₂ hm₂
  simp [countOf, dictGet, ht₂] at hc₂
  simp [maxOf, dictGet, ht₂] at hx₂
  simp [sumOf, dictGet, ht₂] at hs₂
  simp [errcountOf, dictGet, ht₂] at he₂
  have hp : ∀ f : ObsVals → Int, (vs₂.map f).sum = (vs.map f).sum :=
    fun f => (hperm.map f).sum_eq
  exact ⟨m₂, t₂, hm₂, ht₂,
    by rw [hc₂, hp ObsVals.count, hc],
    by rw [hx₂, hp ObsVals.max, hx],
    by rw [hs₂, hp ObsVals.sum, hs],
    by rw [he₂, hp ObsVals.errcount, he]⟩

/-- C2, witness: the two observations of the end-to-end example merged
under one key give count 5, max 80 (the sum 50 + 30, not the maximum),
sum 250 and errcount 1, and any reordering gives the same counters. -/
theorem C2_witness :
    List.Forall₂ obs_extracts
      [["count=2", "max=50", "sum=100", "err.count=0"],
       ["count=3", "max=30", "sum=150", "err.count=1"]]
      [⟨2, 50, 100, 0⟩, ⟨3, 30, 150, 1⟩]
  ∧ ([["count=2", "max=50", "sum=100", "err.count=0"],
      ["count=3", "max=30", "sum=150", "err.count=1"]] : List (List String)) ≠ []
  ∧ (∃ m' t, mergeAll 0 "svc"
        [["count=2", "max=50", "sum=100", "err.count=0"],
         ["count=3", "max=30", "sum=150", "err.count=1"]] [] = .ok m' ∧
      dictGet m' (mkKey 0 "svc") = some t ∧
      t.count = 5 ∧ t.max = 80 ∧ t.sum = 250 ∧ t.errcount = 1 ∧
      ∀ (obss₂ : List (List String)) (vs₂ : List ObsVals),
        List.Forall₂ obs_extracts obss₂ vs₂ →
        vs₂.Perm [⟨2, 50, 100, 0⟩, ⟨3, 30, 150, 1⟩] →
        ∃ m₂ t₂, mergeAll 0 "svc" obss₂ [] = .ok m₂ ∧
          dictGet m₂ (mkKey 0 "svc") = some t₂ ∧
          t₂.count = t.count ∧ t₂.max = t.max ∧
          t₂.sum = t.sum ∧ t₂.errcount = t.errcount) := by
  have hf : List.Forall₂ obs_extracts
      [["count=2", "max=50", "sum=100", "err.count=0"],
       ["count=3", "max=30", "sum=150", "err.count=1"]]
      [⟨2, 50, 100, 0⟩, ⟨3, 30, 150, 1⟩] :=
    List.Forall₂.cons ⟨rfl, rfl, rfl, rfl⟩
      (List.Forall₂.cons ⟨rfl, rfl, rfl, rfl⟩ List.Forall₂.nil)
  exact ⟨hf, by simp, C2_theorem 0 "svc" _ _ hf (by simp)⟩

/-- C3, counterexample to the claim as stated: after merging one
observation with `count=-2` and `sum=6` the stored avg is `0` although
the stored count is nonzero and `sum div count = -3`; the code keeps
`avg = 0` for every non-positive count, not only for count zero. -/
theorem C3_counterexample :
    record_metrics_line 0 "b" ["count=-2", "max=0", "sum=6", "err.count=0"] []
      = .ok [("0-b", ⟨"1970-01-01", "00:00", "b", -2, 0, 0, 6, 0⟩)]
  ∧ (-2 : Int) ≠ 0
  ∧ Int.fdiv 6 (-2) ≠ 0 :=
  ⟨rfl, by decide, by decide⟩

/-- C3 (amended): after every merge, every stored tuple satisfies
`avg = sum div count` when its count is positive and `avg = 0` when its
count is zero or negative; the invariant holds of the empty accumulator
and is preserved by every successful merge step, so avg is always a
function of the current sum and count and is never carried forward
additively. -/
theorem C3_theorem :
    avg_invariant []
  ∧ ∀ (ms : Int) (name : String) (mf : List String) (m m' : Metrics),
      avg_invariant m → record_metrics_line ms name mf m = .ok m' →
      avg_invariant m' := by
  constructor
  · intro k t h
    simp [dictGet] at h
  · intro ms name mf m m' hinv hrec
    obtain ⟨v, hv, rfl⟩ := record_metrics_line_ok_inv hrec
    intro k t hget
    by_cases hk : k = mkKey ms name
    · subst hk
      rw [dictGet_dictSet_self] at hget
      obtain rfl := Option.some.inj hget
      rfl
    · rw [dictGet_dictSet_ne _ _ _ _ hk] at hget
      exact hinv k t hget

/-- C3, witness: the invariant instantiated on one concrete merge on the
empty accumulator, whose stored tuple carries avg 5 = 10 div 2. -/
theorem C3_witness :
    avg_invariant []
  ∧ record_metrics_line 0 "a" ["count=2", "max=7", "sum=10", "err.count=0"] []
      = .ok [("0-a", ⟨"1970-01-01", "00:00", "a", 2, 5, 7, 10, 0⟩)]
  ∧ avg_invariant [("0-a", ⟨"1970-01-01", "00:00", "a", 2, 5, 7, 10, 0⟩)] :=
  ⟨C3_theorem.1, rfl,
   C3_theorem.2 0 "a" ["count=2", "max=7", "sum=10", "err.count=0"] []
     [("0-a", ⟨"1970-01-01", "00:00", "a", 2, 5, 7, 10, 0⟩)] C3_theorem.1 rfl⟩

/-- C4: for any positive window width `w` the bucketizer returns
`w * floor(t / w)` where `t` is the combined instant in milliseconds;
two instants get the same bucket exactly when they lie in one half-open
interval `[w*k, w*(k+1))`; and with no width it returns the instant
unmodified. -/
theorem C4_theorem (d₁ d₂ : CivilDate) (t₁ t₂ : TimeOfDay) (w : Int)
    (hw : 0 < w) :
    calculate_aggregation_period_start_ms (some w) d₁ t₁
      = .ok (w * Int.fdiv (combineMs d₁ t₁) w)
  ∧ (calculate_aggregation_period_start_ms (some w) d₁ t₁
       = calculate_aggregation_period_start_ms (some w) d₂ t₂
     ↔ ∃ k : Int,
         (w * k ≤ combineMs d₁ t₁ ∧ combineMs d₁ t₁ < w * (k + 1))
       ∧ (w * k ≤ combineMs d₂ t₂ ∧ combineMs d₂ t₂ < w * (k + 1)))
  ∧ calculate_aggregation_period_start_ms none d₁ t₁ = .ok (combineMs d₁ t₁) := by
  have hw0 : w ≠ 0 := Int.ne_of_gt hw
  refine ⟨?_, ?_, rfl⟩
  · simp [calculate_aggregation_period_start_ms, hw0, Int.mul_comm]
  · simp only [calculate_aggregation_period_start_ms, hw0, if_false,
      if_neg hw0, Except.ok.injEq]
    constructor
    · intro h
      refine ⟨Int.fdiv (combineMs d₁ t₁) w,
        (fdiv_eq_iff_bounds hw).mp rfl, ?_⟩
      have h2 : Int.fdiv (combineMs d₂ t₂) w = Int.fdiv (combineMs d₁ t₁) w :=
        mul_right_cancel₀ hw0 h.symm
      exact (fdiv_eq_iff_bounds hw).mp h2
    · rintro ⟨k, hk1, hk2⟩
      rw [(fdiv_eq_iff_bounds hw).mpr hk1, (fdiv_eq_iff_bounds hw).mpr hk2]

/-- C4, witness: with the one-minute window, 10:00:05 and 10:00:20 on
2024-01-01 fall into the same bucket. -/
theorem C4_witness :
    (0 : Int) < 60000
  ∧ (calculate_aggregation_period_start_ms (some 60000) ⟨2024, 1, 1⟩ ⟨10, 0, 5⟩
       = .ok (60000 * Int.fdiv (combineMs ⟨2024, 1, 1⟩ ⟨10, 0, 5⟩) 60000)
   ∧ (calculate_aggregation_period_start_ms (some 60000) ⟨2024, 1, 1⟩ ⟨10, 0, 5⟩
        = calculate_aggregation_period_start_ms (some 60000) ⟨2024, 1, 1⟩ ⟨10, 0, 20⟩
      ↔ ∃ k : Int,
          (60000 * k ≤ combineMs ⟨2024, 1, 1⟩ ⟨10, 0, 5⟩
            ∧ combineMs ⟨2024, 1, 1⟩ ⟨10, 0, 5⟩ < 60000 * (k + 1))
        ∧ (60000 * k ≤ combineMs ⟨2024, 1, 1⟩ ⟨10, 0, 20⟩
            ∧ combineMs ⟨2024, 1, 1⟩ ⟨10, 0, 20⟩ < 60000 * (k + 1)))
   ∧ calculate_aggregation_period_start_ms none ⟨2024, 1, 1⟩ ⟨10, 0, 5⟩
       = .ok (combineMs ⟨2024, 1, 1⟩ ⟨10, 0, 5⟩)) :=
  ⟨by decide,
   C4_theorem ⟨2024, 1, 1⟩ ⟨2024, 1, 1⟩ ⟨10, 0, 5⟩ ⟨10, 0, 20⟩ 60000 (by decide)⟩

/-- C5: the two example lines from a file dated 2024-01-01, aggregated
with a one-minute window and no filter, produce exactly one accumulated
tuple, keyed by the 10:00 bucket of svc.A, with date label 2024-01-01,
time label 10:00, count 5, avg 50, max 80, sum 250 and errcount 1. -/
theorem C5_theorem :
    read_file ⟨2024, 1, 1⟩
      ["10:00:05, tm, svc.A, count=2, max=50, sum=100, err.count=0",
       "10:00:20, tm, svc.A, count=3, max=30, sum=150, err.count=1"]
      (calculate_aggregation_period_start_ms (some 60000)) none []
    = .ok [("1704103200000-svc.A",
        ⟨"2024-01-01", "10:00", "svc.A", 5, 50, 80, 250, 1⟩)] := rfl

/-- C6: the code has no InvalidConfiguration guard for non-positive
widths.  With width 0 the bucketizer reaches the division and Python
raises ZeroDivisionError; with a negative width it silently computes a
bucket (here rounding up to the next minute boundary) instead of
failing. -/
theorem C6_theorem :
    calculate_aggregation_period_start_ms (some 0) ⟨2024, 1, 1⟩ ⟨10, 0, 5⟩
      = .error .zeroDivisionError
  ∧ calculate_aggregation_period_start_ms (some (-60000)) ⟨2024, 1, 1⟩ ⟨10, 0, 5⟩
      = .ok 1704103260000 :=
  ⟨rfl, rfl⟩

/-- C7: the mapping key `str(ms) + "-" + name` is injective in the pair
`(ms, name)` (also for names containing dashes), a merge under one key
never reads or overwrites the tuple of a different key, and storing
preserves distinctness of the stored keys, so the mapping holds exactly
one tuple per aggregation key. -/
theorem C7_theorem :
    (∀ (ms₁ ms₂ : Int) (n₁ n₂ : String),
        mkKey ms₁ n₁ = mkKey ms₂ n₂ → ms₁ = ms₂ ∧ n₁ = n₂)
  ∧ (∀ (m : Metrics) (ms₁ ms₂ : Int) (n₁ n₂ : String) (v : MetricsTuple),
        (ms₁, n₁) ≠ (ms₂, n₂) →
        dictGet (dictSet m (mkKey ms₁ n₁) v) (mkKey ms₂ n₂)
          = dictGet m (mkKey ms₂ n₂))
  ∧ (∀ (m : Metrics) (k : String) (v : MetricsTuple),
        (m.map Prod.fst).Nodup → ((dictSet m k v).map Prod.fst).Nodup) := by
  refine ⟨mkKey_inj, ?_, nodup_keys_dictSet⟩
  intro m ms₁ ms₂ n₁ n₂ v hne
  apply dictGet_dictSet_ne
  intro he
  obtain ⟨h1, h2⟩ := mkKey_inj ms₂ ms₁ n₂ n₁ he
  exact hne (by rw [h1, h2])

/-- C7, witness: the keys of the pairs (1, 2-x) and (12, x) are distinct
although both render around dashes, and setting the first key does not
disturb a lookup of the second. -/
theorem C7_witness :
    mkKey 1 "2-x" ≠ mkKey 12 "x"
  ∧ dictGet (dictSet [] (mkKey 1 "2-x") ⟨"", "", "2-x", 0, 0, 0, 0, 0⟩)
      (mkKey 12 "x") = none := by
  constructor
  · intro h
    obtain ⟨h1, -⟩ := C7_theorem.1 1 12 "2-x" "x" h
    exact absurd h1 (by decide)
  · rw [C7_theorem.2.1 [] 1 12 "2-x" "x" ⟨"", "", "2-x", 0, 0, 0, 0, 0⟩
      (by decide)]
    rfl

/-- C8: with no pattern the filter accepts every name; with the pattern
anchored at foo it rejects barfoo and accepts foobar and FOOBAR, the
match being case-insensitive. -/
theorem C8_theorem :
    (∀ name : String, regex_accepts none name = true)
  ∧ regex_accepts (some "^foo") "barfoo" = false
  ∧ regex_accepts (some "^foo") "foobar" = true
  ∧ regex_accepts (some "^foo") "FOOBAR" = true :=
  ⟨fun _ => rfl, rfl, rfl, rfl⟩

/-- C9: rendering divides the stored sum, max and avg by the unit
divisor (1 with no unit flag, 1000 for ms, 1000000 for sec) with floor
division and never divides count or errcount; a stored sum of 1500000
renders as 1 under sec, 1500 under ms and 1500000 with no unit flag. -/
theorem C9_theorem :
    (∀ t : MetricsTuple,
      print_metrics_fields t (unit_divisor_of "ns")
        = ⟨t.count, t.sum, t.max, t.avg, t.errcount⟩
    ∧ print_metrics_fields t (unit_divisor_of "ms")
        = ⟨t.count, Int.fdiv t.sum 1000, Int.fdiv t.max 1000,
            Int.fdiv t.avg 1000, t.errcount⟩
    ∧ print_metrics_fields t (unit_divisor_of "sec")
        = ⟨t.count, Int.fdiv t.sum 1000000, Int.fdiv t.max 1000000,
            Int.fdiv t.avg 1000000, t.errcount⟩)
  ∧ (print_metrics_fields ⟨"", "", "", 0, 0, 0, 1500000, 0⟩
      (unit_divisor_of "sec")).sum = 1
  ∧ (print_metrics_fields ⟨"", "", "", 0, 0, 0, 1500000, 0⟩
      (unit_divisor_of "ms")).sum = 1500
  ∧ (print_metrics_fields ⟨"", "", "", 0, 0, 0, 1500000, 0⟩
      (unit_divisor_of "ns")).sum = 1500000 := by
  refine ⟨?_, rfl, rfl, rfl⟩
  intro t
  refine ⟨?_, rfl, rfl⟩
  show print_metrics_fields t 1 = _
  simp [print_metrics_fields, Int.fdiv_one]

/-- C10: field extraction returns the integer parsed from the text after
position one-past-the-name of the first token that starts with the
requested name, and falls back to 0 exactly when no token matches; with
two count fields only the first is used, and a token whose name merely
extends the requested name is selected ahead of a later exact match. -/
theorem C10_theorem :
    (∀ (field_name : String) (fields : List String),
      field_value field_name fields =
        match fields.find? (fun f => pyStartsWith f field_name) with
        | some tok => pyInt (pyDrop tok (field_name.length + 1))
        | none => .ok 0)
  ∧ field_value "count" ["count=2", "count=3"] = .ok 2
  ∧ field_value "count" ["counter=9", "count=3"] = .error .valueError
  ∧ field_value "max" ["count=2", "sum=100"] = .ok 0 := by
  refine ⟨?_, rfl, rfl, rfl⟩
  intro fn fields
  induction fields with
  | nil => rfl
  | cons f fs ih =>
    by_cases h : pyStartsWith f fn
    · simp [field_value, List.find?, h]
    · simp only [field_value, List.find?, h, Bool.false_eq_true, if_false]
      rw [ih]
